import Mathlib

set_option maxHeartbeats 1000000

/-!
Verification development for the QgisPhotoEditor plugin.

The definitions below are a shallow embedding of the plugin's Python source
(`photo_editor_widget/photo_editor_widget.py`,
`photo_editor_widget/photo_viewer_widget.py`,
`photo_editor_widget/utils/file_parser.py`):

* geometry (`_create_arrow`, `QRectF(...).normalized()`) is embedded over ℚ;
  where the source computes a floating-point square root, the embedding takes
  the root as an explicit parameter constrained by a hypothesis;
* Python strings are embedded as `List Char`, and `str.replace`, substring
  containment (`in`), `pathlib` parent/name arithmetic and the filename regex
  are implemented as executable recursive functions with Python's semantics;
* the interactive drawing state machine of `PhotoGraphicsView` is embedded as
  a transition function on an explicit state record; Qt scene items are
  modelled as a list of records with numeric identities (object identity in
  Python corresponds to the `id` field, which the transition functions keep
  unique by construction);
* record/field access (`QgsFeature`) is modelled as an association list.
-/

/-! ## Geometry: points, squared distance, arrowhead (`_create_arrow`) -/

/-- Scene points, embedded as pairs of rationals (the source uses `QPointF`). -/
abbrev Pt := ℚ × ℚ

/-- Squared euclidean distance between two points. -/
def sqDist (p q : Pt) : ℚ :=
  (p.1 - q.1) ^ 2 + (p.2 - q.2) ^ 2

/-- Translation of the arrowhead computation in
`PhotoGraphicsView._create_arrow` (photo_editor_widget.py lines 223-253).
The source computes `length = (dx**2 + dy**2)**0.5` in floating point; here
`len` is that value, passed explicitly and constrained in the theorems by
`len ^ 2 = dx ^ 2 + dy ^ 2` together with `0 < len` (resp. `len = 0` for the
degenerate `start == end` case, where the source computes `sqrt 0 = 0`).
`w` is `editor_widget.line_width`; the source sets `arrow_size = w * 4`.
The returned list is the polygon `[p1, p2, p3]` of the arrowhead, `[]` when
no arrowhead is produced. -/
def arrowHead (sx sy ex ey w len : ℚ) : List Pt :=
  let dx := ex - sx
  let dy := ey - sy
  let s := w * 4
  if 0 < len then
    let ux := dx / len
    let uy := dy / len
    [(ex, ey),
     (ex - s * ux + s * (1/2) * uy, ey - s * uy - s * (1/2) * ux),
     (ex - s * ux - s * (1/2) * uy, ey - s * uy + s * (1/2) * ux)]
  else []

/-! ## Rectangles (`QRectF` two-point constructor and `normalized()`) -/

/-- `QRectF`: origin `(x, y)` and signed extent `(w, h)`. -/
structure Rect where
  x : ℚ
  y : ℚ
  w : ℚ
  h : ℚ
  deriving DecidableEq

/-- The `QRectF(topLeft, bottomRight)` two-point constructor: origin at the
first point, extent the (possibly negative) difference to the second. -/
def mkRect (p q : Pt) : Rect :=
  ⟨p.1, p.2, q.1 - p.1, q.2 - p.2⟩

/-- `QRectF::normalized()`: flips a negative width (resp. height) around so
that both extents are non-negative, preserving the point set. -/
def Rect.normalized (r : Rect) : Rect :=
  let r1 := if r.w < 0 then { r with x := r.x + r.w, w := -r.w } else r
  if r1.h < 0 then { r1 with y := r1.y + r1.h, h := -r1.h } else r1

/-- `QRectF(self.start_point, current_point).normalized()` as used in
`_update_shape_preview`, `_create_rect` and `_create_ellipse`. -/
def normRect (p q : Pt) : Rect :=
  (mkRect p q).normalized

/-! ## Python strings as character lists -/

/-- Python strings are embedded as lists of characters. -/
abbrev Str := List Char

/-- Python's substring containment test `pat in s`. -/
def hasSub (pat : Str) : Str → Bool
  | [] => pat.isEmpty
  | c :: tail => pat.isPrefixOf (c :: tail) || hasSub pat tail

/-- Recursion core of Python's `s.replace(pat, rep)`.  The fuel argument
only makes the recursion structural: every step consumes at least one
character, so any `fuel ≥ s.length` computes the replacement (see
`replaceAllAux_congr`), and `replaceAll` below passes exactly `s.length`. -/
def replaceAllAux (pat rep : Str) : Nat → Str → Str
  | _, [] => []
  | 0, s => s
  | fuel + 1, c :: tail =>
    if pat ≠ [] ∧ pat.isPrefixOf (c :: tail) = true then
      rep ++ replaceAllAux pat rep fuel ((c :: tail).drop pat.length)
    else
      c :: replaceAllAux pat rep fuel tail

/-- Python's `s.replace(pat, rep)`: replaces every non-overlapping occurrence
of `pat` left to right, scanning resumes after each replacement. -/
def replaceAll (pat rep s : Str) : Str :=
  replaceAllAux pat rep s.length s

/-- Split a path string at `/` separators (the segment view `pathlib` uses;
faithful on the normalized paths this plugin handles). -/
def splitPath : Str → List Str
  | [] => [[]]
  | c :: tail =>
    if c = '/' then [] :: splitPath tail
    else
      match splitPath tail with
      | [] => [[c]]
      | seg :: rest => (c :: seg) :: rest

/-- Join path segments with `/` separators (inverse of `splitPath`). -/
def joinPath : List Str → Str
  | [] => []
  | [s] => s
  | s :: rest => s ++ '/' :: joinPath rest

/-- `pathlib.Path(...).name`: the final path segment. -/
def lastName (segs : List Str) : Str :=
  segs.getLast?.getD []

/-- The literal `'/original/'` from `_save_image`. -/
def sOrig : Str := "/original/".toList

/-- The literal `'/edited/'` from `_save_image`. -/
def sEdit : Str := "/edited/".toList

/-- The path segment `original`. -/
def origSeg : Str := "original".toList

/-- The path segment `edited`. -/
def editSeg : Str := "edited".toList

/-- Translation of the destination-path logic of
`PhotoEditorWidget._save_image` (photo_editor_widget.py lines 680-690):
if `'/original/' in path` then `path.replace('/original/', '/edited/')`,
else `path.parent.parent / "edited" / path.name`. -/
def savePathFor (p : Str) : Str :=
  if hasSub sOrig p then
    replaceAll sOrig sEdit p
  else
    let segs := splitPath p
    joinPath (segs.dropLast.dropLast ++ [editSeg, lastName segs])

/-- The destination mapping as the spec's sentence words it (for comparison
with `savePathFor` only, not a translation of the source): if some path
segment is literally `original`, that segment is replaced by `edited` with
the rest of the path preserved; otherwise the sibling `edited` directory of
the source's parent is used. -/
def claimDest (p : Str) : Str :=
  let segs := splitPath p
  if origSeg ∈ segs then
    joinPath (segs.map fun s => if s = origSeg then editSeg else s)
  else
    joinPath (segs.dropLast.dropLast ++ [editSeg, lastName segs])

/-! ## Filename codec (`PhotoFileNameParser`) -/

/-- Split at the first occurrence of character `c`: returns the (possibly
empty) part strictly before it and the part strictly after it, or `none`
when `c` does not occur. -/
def splitFirst (c : Char) : Str → Option (Str × Str)
  | [] => none
  | a :: tail =>
    if a = c then some ([], tail)
    else (splitFirst c tail).map fun pr => (a :: pr.1, pr.2)

/-- Translation of `PhotoFileNameParser.parse` (file_parser.py lines 22-56):
anchored matching of the regex
`^([^-]+)-([^_]+)_([^.]+)(\.[^.]+)$` with named groups
build_code, facility_name, facility_number, extension.  The character
classes cannot cross their delimiters, so the regex deterministically splits
at the first `-`, then the first `_` of the remainder, then the first `.` of
the remainder; the final group must be nonempty and dot-free (a greedy
`[^.]+` always reaches the true end of the string on success, so Python's
end anchor introduces no extra behaviour).  Returns
`(build_code, facility_name, facility_number, extension)` or `none`. -/
def parseFileName (s : Str) : Option (Str × Str × Str × Str) :=
  match splitFirst '-' s with
  | none => none
  | some (bc, r1) =>
    if bc = [] then none
    else
      match splitFirst '_' r1 with
      | none => none
      | some (fn, r2) =>
        if fn = [] then none
        else
          match splitFirst '.' r2 with
          | none => none
          | some (num, ext) =>
            if num = [] then none
            else if ext = [] then none
            else if '.' ∈ ext then none
            else some (bc, fn, num, '.' :: ext)

/-- Translation of `PhotoFileNameParser.build` (file_parser.py lines 58-84):
the f-string `f"{build_code}-{facility_name}_{facility_number}{extension}"`. -/
def buildFileName (bc fn num ext : Str) : Str :=
  bc ++ '-' :: fn ++ '_' :: num ++ ext

/-! ## Record fields -/

/-- A bound record (`QgsFeature`), modelled as an association list from field
names to string values; `fields().names()` is the key list and `feature[k]`
is the first value stored under `k`. -/
abbrev Record := List (String × String)

/-- Python's default whitespace set for `str.strip()`. -/
def pySpace (c : Char) : Bool :=
  c = ' ' || c = '\t' || c = '\n' || c = '\r' || c = '\x0b' || c = '\x0c'

/-- Python's `s.strip()`: removes leading and trailing whitespace. -/
def pyStrip (s : Str) : Str :=
  ((s.dropWhile pySpace).reverse.dropWhile pySpace).reverse

/-- Python's `s.upper()` on the ASCII values this plugin compares. -/
def pyUpper (s : Str) : Str :=
  s.map Char.toUpper

/-- `str.strip()` on Lean strings. -/
def stripS (v : String) : String :=
  ⟨pyStrip v.toList⟩

/-- The value test applied by `PhotoViewerWidget.load_photo` (lines 116-121):
`path and str(path).strip() and str(path).strip().upper() != 'NULL'`. -/
def pathUsable (v : String) : Bool :=
  !(v.toList == []) && !(pyStrip v.toList == []) &&
    !(pyUpper (pyStrip v.toList) == "NULL".toList)

/-- The viewer's priority-ordered field names. -/
def viewerFieldNames : List String :=
  ["photo_edited_path", "photo_edited"]

/-- The `for field_name in [...]` loop of `PhotoViewerWidget.load_photo`:
skips a name absent from the schema, skips a present field whose value fails
`pathUsable`, and returns the stripped value of the first usable field. -/
def resolveViewerLoop (r : Record) : List String → Option String
  | [] => none
  | k :: ks =>
    match r.lookup k with
    | none => resolveViewerLoop r ks
    | some v => if pathUsable v then some (stripS v) else resolveViewerLoop r ks

/-- Photo-path resolution of the read-only viewer. -/
def resolveViewerPath (r : Record) : Option String :=
  resolveViewerLoop r viewerFieldNames

/-- Helper for stating the resolution contract: the usable stripped value of
one optional field read. -/
def usableValue (o : Option String) : Option String :=
  match o with
  | none => none
  | some v => if pathUsable v then some (stripS v) else none

/-- First-defined choice between two optional values. -/
def firstSome (a b : Option String) : Option String :=
  match a with
  | some x => some x
  | none => b

/-! ## Editor save pipeline (`_save_image`, `_update_edited_path_field`) -/

/-- The part of the editor-widget state the save pipeline reads. -/
structure EditorState where
  currentPhotoPath : Option String
  feature : Option Record
  deriving DecidableEq

/-- A status-area message: text plus the color it is styled with. -/
structure StatusMsg where
  text : String
  color : String
  deriving DecidableEq

/-- Observable outcome of a save request: the status shown, the file path
written (if any), the record afterwards, and whether the field-missing
warning was logged. -/
structure SaveOutcome where
  status : StatusMsg
  wrote : Option String
  feature : Option Record
  fieldWarning : Bool
  deriving DecidableEq

/-- `savePathFor` on Lean strings. -/
def savePathForS (p : String) : String :=
  ⟨savePathFor p.toList⟩

/-- `pathlib.Path(p).name` on Lean strings. -/
def basenameS (p : String) : String :=
  ⟨lastName (splitPath p.toList)⟩

/-- Status shown by `_save_image` when `current_photo_path` is unset
(line 621: `"⚠ 保存する画像がありません"`, warning orange). -/
def noImageStatus : StatusMsg :=
  ⟨"⚠ 保存する画像がありません", "#FF9500"⟩

/-- Success status of `_save_image` (line 705). -/
def savedStatus (dest : String) : StatusMsg :=
  ⟨"✓ 保存完了: " ++ basenameS dest, "#34C759"⟩

/-- Error status of `_save_image` when the JPEG encode reports failure
(lines 715, 718). -/
def saveErrorStatus : StatusMsg :=
  ⟨"❌ 保存エラー: 画像保存に失敗", "#FF3B30"⟩

/-- Translation of `PhotoEditorWidget._update_edited_path_field`
(lines 730-765): if `photo_edited_path` is absent from the schema, log a
warning and leave the record unchanged; otherwise write the destination path
into that field.  Returns the record and whether the warning was logged. -/
def updateEditedPathField (r : Record) (path : String) : Record × Bool :=
  if (r.lookup "photo_edited_path").isSome then
    (r.map fun kv => if kv.1 = "photo_edited_path" then (kv.1, path) else kv,
     false)
  else (r, true)

/-- Translation of the externally observable behaviour of
`PhotoEditorWidget._save_image` (lines 618-728).  Rendering is not modelled
(it writes pixels, not state); `encodeOk` stands for the boolean result of
`image.save(...)`.  With no photo loaded the function returns immediately
with a warning status, writing nothing and touching no field; on encode
success it writes the destination file, shows the success status and then
updates the record field; on encode failure the raised exception is caught
and converted to the error status. -/
def saveImage (st : EditorState) (encodeOk : Bool) : SaveOutcome :=
  match st.currentPhotoPath with
  | none => ⟨noImageStatus, none, st.feature, false⟩
  | some p =>
    let dest := savePathForS p
    if encodeOk then
      match st.feature with
      | none => ⟨savedStatus dest, some dest, none, false⟩
      | some r =>
        let ur := updateEditedPathField r dest
        ⟨savedStatus dest, some dest, some ur.1, ur.2⟩
    else ⟨saveErrorStatus, none, st.feature, false⟩

/-! ## Scene and interaction state machine (`PhotoGraphicsView`) -/

/-- The drawing tools (`DrawingTool` constants). -/
inductive Tool
  | select
  | pen
  | line
  | arrow
  | rect
  | ellipse
  | text
  deriving DecidableEq

/-- Geometry payload of a scene item.  An arrowhead polygon is recorded by
its defining data `(start, end, width)`; its vertex coordinates are the
value of `arrowHead` at the floating-point root of `dx^2 + dy^2`, and the
source only adds it when that root is positive, i.e. when start ≠ end. -/
inductive Geom
  | pixmap
  | path (points : List Pt)
  | lineSeg (a b : Pt)
  | rectangle (r : Rect)
  | ellipseIn (r : Rect)
  | arrowPoly (a b : Pt) (w : ℚ)
  | textLabel (pos : Pt)
  deriving DecidableEq

/-- A `QGraphicsItem` in the scene: Python object identity is the `id`
field, kept unique by construction in the transition functions. -/
structure SceneItem where
  id : Nat
  geom : Geom
  selectable : Bool
  movable : Bool
  deriving DecidableEq

/-- `scene.removeItem(obj)` for the object with identity `i`. -/
def removeItemById (scene : List SceneItem) (i : Nat) : List SceneItem :=
  scene.filter fun it => it.id != i

/-- `scene.addItem(obj)` appends to the item list. -/
def addItem (scene : List SceneItem) (it : SceneItem) : List SceneItem :=
  scene ++ [it]

/-- The scene right after `load_photo` set a background photo: the scene was
cleared and the single pixmap item added (lines 837-840). -/
def setBackgroundScene (pixId : Nat) : List SceneItem :=
  [⟨pixId, Geom.pixmap, false, false⟩]

/-- Translation of `PhotoEditorWidget._delete_selected` (lines 596-601):
every currently selected item other than the background pixmap item is
removed.  `selectedIds` are the identities of `scene.selectedItems()`;
`pixId` is the identity of `self.pixmap_item` (`none` when no photo is
loaded, in which case `item != self.pixmap_item` holds for every item). -/
def deleteSelected (scene : List SceneItem) (pixId : Option Nat)
    (selectedIds : List Nat) : List SceneItem :=
  scene.filter fun it => !(selectedIds.contains it.id && !(some it.id == pixId))

/-- Translation of `PhotoEditorWidget._clear_drawings` (lines 603-616):
every item other than the background pixmap item is removed. -/
def clearDrawings (scene : List SceneItem) (pixId : Option Nat) :
    List SceneItem :=
  scene.filter fun it => some it.id == pixId

/-- Interaction state of `PhotoGraphicsView` together with the drawing
settings it reads from the editor widget (`current_tool`, `line_width`). -/
structure ViewState where
  tool : Tool
  lineWidth : ℚ
  drawing : Bool
  startPoint : Option Pt
  currentItem : Option Nat
  penPath : Option (List Pt)
  scene : List SceneItem
  nextId : Nat
  pixmapId : Option Nat
  deriving DecidableEq

/-- `PhotoEditorWidget._set_tool`: records the new current tool (the drag
mode it also sets has no bearing on the scene contents). -/
def setTool (st : ViewState) (t : Tool) : ViewState :=
  { st with tool := t }

/-- The preview geometry `_update_shape_preview` constructs for each tool
(`line` and `arrow` preview as a plain line; `rect`/`ellipse` as the
normalized two-point rectangle). -/
def previewGeom (tool : Tool) (sp cp : Pt) : Option Geom :=
  match tool with
  | Tool.line => some (Geom.lineSeg sp cp)
  | Tool.arrow => some (Geom.lineSeg sp cp)
  | Tool.rect => some (Geom.rectangle (normRect sp cp))
  | Tool.ellipse => some (Geom.ellipseIn (normRect sp cp))
  | _ => none

/-- Translation of `PhotoGraphicsView._update_shape_preview`
(lines 157-191): the previous preview item (if any) is removed, a fresh
non-selectable preview item is constructed for the active tool and added,
and it becomes the current item. -/
def updateShapePreview (st : ViewState) (sp pos : Pt) : ViewState :=
  let sc :=
    match st.currentItem with
    | some i => removeItemById st.scene i
    | none => st.scene
  match previewGeom st.tool sp pos with
  | some g =>
    { st with
      scene := addItem sc ⟨st.nextId, g, false, false⟩
      currentItem := some st.nextId
      nextId := st.nextId + 1 }
  | none => { st with scene := sc }

/-- Translation of `PhotoGraphicsView.mousePressEvent` (lines 59-79): with
the select tool every event passes through to native handling (which never
removes scene items); otherwise a drag session opens at the scene position,
a pen stroke is started immediately, and a text click creates a finished
text item and closes the session at once. -/
def mousePressEvt (st : ViewState) (pos : Pt) : ViewState :=
  if st.tool = Tool.select then st
  else
    let st1 := { st with drawing := true, startPoint := some pos }
    match st1.tool with
    | Tool.pen =>
      { st1 with
        penPath := some [pos]
        currentItem := some st1.nextId
        scene := addItem st1.scene ⟨st1.nextId, Geom.path [pos], false, false⟩
        nextId := st1.nextId + 1 }
    | Tool.text =>
      { st1 with
        scene := addItem st1.scene ⟨st1.nextId, Geom.textLabel pos, true, true⟩
        nextId := st1.nextId + 1
        drawing := false }
    | _ => st1

/-- Translation of `PhotoGraphicsView.mouseMoveEvent` (lines 81-99). -/
def mouseMoveEvt (st : ViewState) (pos : Pt) : ViewState :=
  if st.tool = Tool.select then st
  else
    match st.startPoint with
    | none => st
    | some sp =>
      if st.drawing then
        match st.tool with
        | Tool.pen =>
          match st.penPath, st.currentItem with
          | some ps, some i =>
            let nps := ps ++ [pos]
            { st with
              penPath := some nps
              scene := st.scene.map fun it =>
                if it.id = i then { it with geom := Geom.path nps } else it }
          | _, _ => st
        | Tool.line => updateShapePreview st sp pos
        | Tool.arrow => updateShapePreview st sp pos
        | Tool.rect => updateShapePreview st sp pos
        | Tool.ellipse => updateShapePreview st sp pos
        | _ => st
      else st

/-- The finalization step of `mouseReleaseEvent` for the active tool:
`_finish_pen_drawing`, `_create_line`, `_create_arrow`, `_create_rect`,
`_create_ellipse` (lines 153-294).  Line/arrow/rect/ellipse first remove the
preview item, then add the finished selectable and movable item; the arrow
additionally adds its head polygon exactly when the direction vector is
non-zero (`length > 0` in the source, i.e. start ≠ end). -/
def finalizeShape (st : ViewState) (sp pos : Pt) : ViewState :=
  let sc :=
    match st.currentItem with
    | some i => removeItemById st.scene i
    | none => st.scene
  match st.tool with
  | Tool.pen => { st with penPath := none }
  | Tool.line =>
    { st with
      scene := addItem sc ⟨st.nextId, Geom.lineSeg sp pos, true, true⟩
      nextId := st.nextId + 1 }
  | Tool.arrow =>
    let sc1 := addItem sc ⟨st.nextId, Geom.lineSeg sp pos, true, true⟩
    if sp ≠ pos then
      { st with
        scene := addItem sc1 ⟨st.nextId + 1, Geom.arrowPoly sp pos st.lineWidth, true, true⟩
        nextId := st.nextId + 2 }
    else { st with scene := sc1, nextId := st.nextId + 1 }
  | Tool.rect =>
    { st with
      scene := addItem sc ⟨st.nextId, Geom.rectangle (normRect sp pos), true, true⟩
      nextId := st.nextId + 1 }
  | Tool.ellipse =>
    { st with
      scene := addItem sc ⟨st.nextId, Geom.ellipseIn (normRect sp pos), true, true⟩
      nextId := st.nextId + 1 }
  | _ => st

/-- Translation of `PhotoGraphicsView.mouseReleaseEvent` (lines 101-129):
select passes through to native handling; otherwise, if a drag session is
open, the active tool's shape is finalized and the session state is reset. -/
def mouseReleaseEvt (st : ViewState) (pos : Pt) : ViewState :=
  if st.tool = Tool.select then st
  else if st.drawing then
    let st1 :=
      match st.startPoint with
      | some sp => finalizeShape st sp pos
      | none => st
    { st1 with drawing := false, startPoint := none, currentItem := none }
  else st

/-- A fresh view over a freshly loaded photo: select tool active, default
width 3, the background pixmap item (identity 0) alone in the scene. -/
def initViewState : ViewState :=
  { tool := Tool.select
    lineWidth := 3
    drawing := false
    startPoint := none
    currentItem := none
    penPath := none
    scene := setBackgroundScene 0
    nextId := 1
    pixmapId := some 0 }

/-- A concrete mid-drag session: rect tool chosen, pointer pressed at (1,1),
moved to (5,5) (preview rectangle in the scene), then the tool switched to
select before the pointer was released. -/
def c4DemoState : ViewState :=
  setTool (mouseMoveEvt (mousePressEvt (setTool initViewState Tool.rect) (1, 1)) (5, 5))
    Tool.select

/-! ## Theorems -/

/-- `foldl addItem` just appends the added items in order. -/
theorem foldl_addItem (init : List SceneItem) (l : List SceneItem) :
    l.foldl addItem init = init ++ l := by
  induction l generalizing init with
  | nil => simp
  | cons a t ih => simp [List.foldl_cons, addItem, ih]

/-- The normalized two-point rectangle in closed form: origin at the
componentwise minimum, far corner at the componentwise maximum. -/
theorem normRect_eq (p q : Pt) :
    normRect p q = ⟨min p.1 q.1, min p.2 q.2,
      max p.1 q.1 - min p.1 q.1, max p.2 q.2 - min p.2 q.2⟩ := by
  unfold normRect mkRect Rect.normalized
  dsimp only
  rcases le_or_lt p.1 q.1 with hx | hx <;> rcases le_or_lt p.2 q.2 with hy | hy
  · rw [if_neg (by linarith : ¬(q.1 - p.1 < 0))]
    dsimp only
    rw [if_neg (by linarith : ¬(q.2 - p.2 < 0))]
    simp only [Rect.mk.injEq]
    refine ⟨by rw [min_eq_left hx], by rw [min_eq_left hy],
      by rw [max_eq_right hx, min_eq_left hx],
      by rw [max_eq_right hy, min_eq_left hy]⟩
  · rw [if_neg (by linarith : ¬(q.1 - p.1 < 0))]
    dsimp only
    rw [if_pos (by linarith : q.2 - p.2 < 0)]
    simp only [Rect.mk.injEq]
    refine ⟨by rw [min_eq_left hx], by rw [min_eq_right hy.le]; ring,
      by rw [max_eq_right hx, min_eq_left hx],
      by rw [max_eq_left hy.le, min_eq_right hy.le]; ring⟩
  · rw [if_pos (by linarith : q.1 - p.1 < 0)]
    dsimp only
    rw [if_neg (by linarith : ¬(q.2 - p.2 < 0))]
    simp only [Rect.mk.injEq]
    refine ⟨by rw [min_eq_right hx.le]; ring, by rw [min_eq_left hy],
      by rw [max_eq_left hx.le, min_eq_right hx.le]; ring,
      by rw [max_eq_right hy, min_eq_left hy]⟩
  · rw [if_pos (by linarith : q.1 - p.1 < 0)]
    dsimp only
    rw [if_pos (by linarith : q.2 - p.2 < 0)]
    simp only [Rect.mk.injEq]
    refine ⟨by rw [min_eq_right hx.le]; ring, by rw [min_eq_right hy.le]; ring,
      by rw [max_eq_left hx.le, min_eq_right hx.le]; ring,
      by rw [max_eq_left hy.le, min_eq_right hy.le]; ring⟩

/-- C5.  Bounding-box normalization: for every pair of drag points `p` and
`q`, the normalized two-point rectangle used by the preview and by
`_create_rect` / `_create_ellipse` has non-negative extents, its origin is
the componentwise minimum of the two points and its far corner the
componentwise maximum, regardless of drag direction; the rect and ellipse
previews are built from exactly this rectangle. -/
theorem bbox_normalization_c5 :
    ∀ p q : Pt,
      0 ≤ (normRect p q).w ∧ 0 ≤ (normRect p q).h ∧
      (normRect p q).x = min p.1 q.1 ∧ (normRect p q).y = min p.2 q.2 ∧
      (normRect p q).x + (normRect p q).w = max p.1 q.1 ∧
      (normRect p q).y + (normRect p q).h = max p.2 q.2 ∧
      previewGeom Tool.rect p q = some (Geom.rectangle (normRect p q)) ∧
      previewGeom Tool.ellipse p q = some (Geom.ellipseIn (normRect p q)) := by
  intro p q
  have hprev1 : previewGeom Tool.rect p q = some (Geom.rectangle (normRect p q)) := rfl
  have hprev2 : previewGeom Tool.ellipse p q = some (Geom.ellipseIn (normRect p q)) := rfl
  rw [normRect_eq]
  refine ⟨by simp [sub_nonneg, min_le_max], by simp [sub_nonneg, min_le_max],
    rfl, rfl, by ring, by ring, ?_, ?_⟩
  · rw [hprev1, normRect_eq]
  · rw [hprev2, normRect_eq]

/-- C10.  The destination mapping need not move the file: the source path
`/data/edited/img.jpg` has no `original` segment and its parent directory is
itself named `edited`, and the computed destination equals the source path
exactly, so saving overwrites the source image in place. -/
theorem dest_path_fixpoint_c10 :
    origSeg ∉ splitPath "/data/edited/img.jpg".toList ∧
    savePathFor "/data/edited/img.jpg".toList = "/data/edited/img.jpg".toList := by
  decide

/-- C3.  Deletion invariant: starting from a scene in which a background
photo has been set (`load_photo` clears the scene and adds the single pixmap
item) and after any sequence of item additions, `_clear_drawings` leaves
exactly the background item; `_delete_selected` never removes the background
item, whatever is selected, and a deletion request that targets only the
background is a no-op. -/
theorem deletion_invariant_c3 :
    (∀ (pixId : Nat) (adds : List SceneItem),
        (∀ it ∈ adds, it.id ≠ pixId) →
        clearDrawings (adds.foldl addItem (setBackgroundScene pixId)) (some pixId)
          = setBackgroundScene pixId) ∧
    (∀ (scene : List SceneItem) (pixId : Nat) (sel : List Nat),
        (∃ it ∈ scene, it.id = pixId) →
        ∃ it ∈ deleteSelected scene (some pixId) sel, it.id = pixId) ∧
    (∀ (scene : List SceneItem) (pixId : Nat),
        deleteSelected scene (some pixId) [pixId] = scene) := by
  refine ⟨?_, ?_, ?_⟩
  · intro pixId adds h
    rw [foldl_addItem]
    unfold clearDrawings setBackgroundScene
    rw [List.filter_append]
    have h1 : List.filter (fun it => some it.id == some pixId)
        [(⟨pixId, Geom.pixmap, false, false⟩ : SceneItem)]
        = [⟨pixId, Geom.pixmap, false, false⟩] := by simp
    have h2 : List.filter (fun it => some it.id == some pixId) adds = [] := by
      rw [List.filter_eq_nil_iff]
      intro it hit
      simpa using h it hit
    rw [h1, h2, List.append_nil]
  · intro scene pixId sel h
    obtain ⟨it, hmem, hid⟩ := h
    refine ⟨it, ?_, hid⟩
    unfold deleteSelected
    rw [List.mem_filter]
    exact ⟨hmem, by simp [hid]⟩
  · intro scene pixId
    unfold deleteSelected
    rw [List.filter_eq_self]
    intro it _
    by_cases hid : it.id = pixId <;> simp [hid]

/-- Witness for `deletion_invariant_c3` at a concrete scene. -/
theorem deletion_invariant_c3_witness :
    ((∀ it ∈ [(⟨1, Geom.lineSeg (0, 0) (2, 3), true, true⟩ : SceneItem),
        ⟨2, Geom.textLabel (1, 1), true, true⟩], it.id ≠ 0) ∧
      clearDrawings
        ([(⟨1, Geom.lineSeg (0, 0) (2, 3), true, true⟩ : SceneItem),
          ⟨2, Geom.textLabel (1, 1), true, true⟩].foldl addItem
            (setBackgroundScene 0)) (some 0)
        = setBackgroundScene 0) ∧
    ((∃ it ∈ setBackgroundScene 0, it.id = 0) ∧
      ∃ it ∈ deleteSelected (setBackgroundScene 0) (some 0) [0, 5], it.id = 0) := by
  refine ⟨⟨by decide, deletion_invariant_c3.1 0 _ (by decide)⟩,
    ⟨by decide, deletion_invariant_c3.2.1 (setBackgroundScene 0) 0 [0, 5] (by decide)⟩⟩

/-- C7.  Save before load fails cleanly: whenever a save is requested while
`current_photo_path` was never set, `_save_image` returns at once with the
human-readable warning status in the status label (orange `#FF9500`), writes
no file, leaves the bound record untouched and logs no field warning; being
a total function of the state, the model raises nothing. -/
theorem save_without_photo_c7 :
    ∀ (st : EditorState) (encodeOk : Bool),
      st.currentPhotoPath = none →
      saveImage st encodeOk =
        ⟨⟨"⚠ 保存する画像がありません", "#FF9500"⟩, none, st.feature, false⟩ := by
  intro st ok h
  unfold saveImage
  rw [h]
  rfl

/-- Witness for `save_without_photo_c7`. -/
theorem save_without_photo_c7_witness :
    saveImage ⟨none, some [("photo_path", "/p/img.jpg")]⟩ true =
      ⟨⟨"⚠ 保存する画像がありません", "#FF9500"⟩, none,
        some [("photo_path", "/p/img.jpg")], false⟩ :=
  save_without_photo_c7 ⟨none, some [("photo_path", "/p/img.jpg")]⟩ true rfl

/-- C9.  A missing `photo_edited_path` field is non-fatal: when the bound
record's schema has no such field, a save whose encode succeeds still writes
the destination file and reports the success status, while the record-field
write is skipped entirely (the record is returned unchanged) and the warning
is logged. -/
theorem missing_field_nonfatal_c9 :
    ∀ (p : String) (r : Record),
      r.lookup "photo_edited_path" = none →
      saveImage ⟨some p, some r⟩ true =
        ⟨savedStatus (savePathForS p), some (savePathForS p), some r, true⟩ := by
  intro p r h
  unfold saveImage updateEditedPathField
  simp [h]

/-- Witness for `missing_field_nonfatal_c9`. -/
theorem missing_field_nonfatal_c9_witness :
    saveImage ⟨some "/data/original/img.jpg",
        some [("photo_path", "/data/original/img.jpg")]⟩ true =
      ⟨savedStatus "/data/edited/img.jpg", some "/data/edited/img.jpg",
        some [("photo_path", "/data/original/img.jpg")], true⟩ := by
  rw [missing_field_nonfatal_c9 "/data/original/img.jpg"
    [("photo_path", "/data/original/img.jpg")] rfl]
  decide

/-- A value whose stripped uppercase form is the literal `NULL` never yields
a usable path. -/
theorem usableValue_null (v : String)
    (h : pyUpper (pyStrip v.toList) = "NULL".toList) :
    usableValue (some v) = none := by
  have h2 : pyUpper (pyStrip v.data) = ['N', 'U', 'L', 'L'] := by simpa using h
  simp [usableValue, pathUsable, h2]

/-- One step of the viewer's field loop is a first-defined choice. -/
theorem resolveViewerLoop_cons (r : Record) (k : String) (ks : List String) :
    resolveViewerLoop r (k :: ks) =
      firstSome (usableValue (r.lookup k)) (resolveViewerLoop r ks) := by
  cases h : r.lookup k <;> simp only [resolveViewerLoop, usableValue, firstSome, h]
  split_ifs <;> rfl

/-- Looking up the first key of a two-field record. -/
theorem lookup_pair_1 (v w : String) :
    (([("photo_edited_path", v), ("photo_edited", w)] : Record).lookup
      "photo_edited_path") = some v := by
  rfl

/-- Looking up the second key of a two-field record. -/
theorem lookup_pair_2 (v w : String) :
    (([("photo_edited_path", v), ("photo_edited", w)] : Record).lookup
      "photo_edited") = some w := by
  rfl

/-- C8.  Viewer field resolution: for every bound record, the read-only
viewer resolves its photo path as the first usable value of
`photo_edited_path` then `photo_edited` (an absent field and a present field
with an unusable value both fall through); a value whose stripped
uppercase form is the literal `NULL` — i.e. `NULL` in any letter case,
possibly padded with whitespace — is treated as absent, falling through to
the next field or to the no-photo state. -/
theorem viewer_field_resolution_c8 :
    (∀ r : Record,
        resolveViewerPath r =
          firstSome (usableValue (r.lookup "photo_edited_path"))
                    (usableValue (r.lookup "photo_edited"))) ∧
    (∀ v : String, pyUpper (pyStrip v.toList) = "NULL".toList →
        usableValue (some v) = none) ∧
    (∀ v w : String, pyUpper (pyStrip v.toList) = "NULL".toList →
        resolveViewerPath [("photo_edited_path", v), ("photo_edited", w)]
          = usableValue (some w)) := by
  have hmain : ∀ r : Record,
      resolveViewerPath r =
        firstSome (usableValue (r.lookup "photo_edited_path"))
                  (usableValue (r.lookup "photo_edited")) := by
    intro r
    simp only [resolveViewerPath, viewerFieldNames]
    rw [resolveViewerLoop_cons, resolveViewerLoop_cons]
    simp only [resolveViewerLoop]
    cases usableValue (r.lookup "photo_edited") <;> rfl
  refine ⟨hmain, fun v h => usableValue_null v h, ?_⟩
  intro v w h
  rw [hmain, lookup_pair_1, lookup_pair_2, usableValue_null v h]
  cases usableValue (some w) <;> rfl

/-- Witness for `viewer_field_resolution_c8`: the value `Null` (mixed case)
in `photo_edited_path` falls through to `photo_edited`. -/
theorem viewer_field_resolution_c8_witness :
    pyUpper (pyStrip ("Null" : String).toList) = "NULL".toList ∧
    resolveViewerPath [("photo_edited_path", "Null"), ("photo_edited", " /x/y.jpg ")]
      = usableValue (some " /x/y.jpg ") :=
  ⟨by decide, viewer_field_resolution_c8.2.2 "Null" " /x/y.jpg " (by decide)⟩

/-- C1.  Arrowhead geometry: for every start, end, width `w` and root `len`
of the squared direction length, if the direction is non-degenerate
(`0 < len`), `_create_arrow` produces exactly the tip plus two back-corner
points; the two corners are equidistant from the tip (squared distance
`20 w²`, i.e. an isosceles triangle), their midpoint lies `4w` behind the
tip along the normalized start→end direction (so the triangle's axis-aligned
size is `4 × w`), the segment joining them is perpendicular to that axis
with half-length `2w` to each side (squared base length `16 w²`), hence the
two corners are symmetric about the start→end axis.  When start equals end
the root is `0` and no arrowhead points are produced — only the zero-length
line is added by the source. -/
theorem arrowhead_geometry_c1 :
    (∀ sx sy ex ey w len : ℚ,
        len ^ 2 = (ex - sx) ^ 2 + (ey - sy) ^ 2 → 0 < len →
        ∃ p2 p3 : Pt,
          arrowHead sx sy ex ey w len = [(ex, ey), p2, p3] ∧
          sqDist p2 (ex, ey) = 20 * w ^ 2 ∧
          sqDist p3 (ex, ey) = 20 * w ^ 2 ∧
          p2.1 + p3.1 = 2 * ex - 8 * w * ((ex - sx) / len) ∧
          p2.2 + p3.2 = 2 * ey - 8 * w * ((ey - sy) / len) ∧
          (p2.1 - p3.1) * (ex - sx) + (p2.2 - p3.2) * (ey - sy) = 0 ∧
          sqDist p2 p3 = 16 * w ^ 2) ∧
    (∀ sx sy w : ℚ, arrowHead sx sy sx sy w 0 = []) := by
  constructor
  · intro sx sy ex ey w len hlen hpos
    have hne : len ≠ 0 := ne_of_gt hpos
    refine ⟨(ex - w * 4 * ((ex - sx) / len) + w * 4 * (1/2) * ((ey - sy) / len),
             ey - w * 4 * ((ey - sy) / len) - w * 4 * (1/2) * ((ex - sx) / len)),
            (ex - w * 4 * ((ex - sx) / len) - w * 4 * (1/2) * ((ey - sy) / len),
             ey - w * 4 * ((ey - sy) / len) + w * 4 * (1/2) * ((ex - sx) / len)),
            ?_, ?_, ?_, by dsimp only; ring, by dsimp only; ring,
            by dsimp only; ring, ?_⟩
    · simp [arrowHead, hpos]
    · unfold sqDist
      dsimp only
      field_simp
      linear_combination (-80 * w ^ 2 * len ^ 2) * hlen
    · unfold sqDist
      dsimp only
      field_simp
      linear_combination (-80 * w ^ 2 * len ^ 2) * hlen
    · unfold sqDist
      dsimp only
      field_simp
      linear_combination (-64 * w ^ 2 * len ^ 2) * hlen
  · intro sx sy w
    norm_num [arrowHead]

/-- Witness for `arrowhead_geometry_c1` at start (0,0), end (3,4), width 1,
where the direction length is exactly 5. -/
theorem arrowhead_geometry_c1_witness :
    ((5:ℚ) ^ 2 = ((3:ℚ) - 0) ^ 2 + ((4:ℚ) - 0) ^ 2 ∧ (0:ℚ) < 5) ∧
    (∃ p2 p3 : Pt,
        arrowHead 0 0 3 4 1 5 = [((3:ℚ), (4:ℚ)), p2, p3] ∧
        sqDist p2 (3, 4) = 20 * (1:ℚ) ^ 2 ∧
        sqDist p3 (3, 4) = 20 * (1:ℚ) ^ 2 ∧
        p2.1 + p3.1 = 2 * 3 - 8 * 1 * (((3:ℚ) - 0) / 5) ∧
        p2.2 + p3.2 = 2 * 4 - 8 * 1 * (((4:ℚ) - 0) / 5) ∧
        (p2.1 - p3.1) * ((3:ℚ) - 0) + (p2.2 - p3.2) * ((4:ℚ) - 0) = 0 ∧
        sqDist p2 p3 = 16 * (1:ℚ) ^ 2) :=
  ⟨⟨by norm_num, by norm_num⟩,
    arrowhead_geometry_c1.1 0 0 3 4 1 5 (by norm_num) (by norm_num)⟩

/-- `splitFirst` finds the first occurrence of its delimiter. -/
theorem splitFirst_append (c : Char) (a b : Str) (h : c ∉ a) :
    splitFirst c (a ++ c :: b) = some (a, b) := by
  induction a with
  | nil => simp [splitFirst]
  | cons x t ih =>
    have hx : x ≠ c := fun e => h (by simp [e])
    have ht : c ∉ t := fun m => h (by simp [m])
    simp [splitFirst, hx, ih ht]

/-- C6 (counterexample).  The claim quantifies over an arbitrary extension:
for `buildCode = "A"`, `facilityName = "B"`, `facilityNumber = "C"` — all
satisfying the claim's constraints — and the extension `"jpg"` (no leading
dot), the built filename `A-B_Cjpg` does not parse at all, contradicting the
claimed round trip. -/
theorem codec_roundtrip_claim_counterexample_c6 :
    ("A".toList ≠ [] ∧ '-' ∉ "A".toList) ∧
    ("B".toList ≠ [] ∧ '_' ∉ "B".toList) ∧
    ("C".toList ≠ [] ∧ '.' ∉ "C".toList) ∧
    parseFileName (buildFileName "A".toList "B".toList "C".toList "jpg".toList)
      = none := by
  decide

/-- C6 (amended).  Filename codec round-trip, additionally requiring the
extension to consist of a leading dot followed by a non-empty dot-free
remainder (which the regex's extension group `\.[^.]+` demands): parsing the
built filename succeeds and returns exactly the original four components. -/
theorem codec_roundtrip_amended_c6 :
    ∀ bc fn num e : Str,
      bc ≠ [] → '-' ∉ bc → fn ≠ [] → '_' ∉ fn → num ≠ [] → '.' ∉ num →
      e ≠ [] → '.' ∉ e →
      parseFileName (buildFileName bc fn num ('.' :: e)) =
        some (bc, fn, num, '.' :: e) := by
  intro bc fn num e hbc hbc2 hfn hfn2 hnum hnum2 he he2
  have h1 : splitFirst '-' (bc ++ '-' :: (fn ++ '_' :: (num ++ '.' :: e)))
      = some (bc, fn ++ '_' :: (num ++ '.' :: e)) := splitFirst_append _ _ _ hbc2
  have h2 : splitFirst '_' (fn ++ '_' :: (num ++ '.' :: e))
      = some (fn, num ++ '.' :: e) := splitFirst_append _ _ _ hfn2
  have h3 : splitFirst '.' (num ++ '.' :: e) = some (num, e) :=
    splitFirst_append _ _ _ hnum2
  simp [parseFileName, buildFileName, h1, h2, h3, hbc, hfn, hnum, he, he2]

/-- Witness for `codec_roundtrip_amended_c6` on `BLD001-girder_01.jpg`. -/
theorem codec_roundtrip_amended_c6_witness :
    parseFileName (buildFileName "BLD001".toList "girder".toList "01".toList
        ('.' :: "jpg".toList)) =
      some ("BLD001".toList, "girder".toList, "01".toList, '.' :: "jpg".toList) :=
  codec_roundtrip_amended_c6 "BLD001".toList "girder".toList "01".toList
    "jpg".toList (by decide) (by decide) (by decide) (by decide) (by decide)
    (by decide) (by decide) (by decide)

/-- C4 (counterexample).  In the concrete mid-drag session `c4DemoState`
(rect drag with a live preview, tool already switched to select), the next
pointer event — a move, and likewise a release — leaves the preview item
(identity 1, still the registered current item, non-selectable) in the
scene: an orphaned preview remains, contradicting the claim. -/
theorem tool_switch_claim_counterexample_c4 :
    c4DemoState.drawing = true ∧ c4DemoState.tool = Tool.select ∧
    c4DemoState.currentItem = some 1 ∧
    (mouseMoveEvt c4DemoState (6, 6)).currentItem = some 1 ∧
    (mouseMoveEvt c4DemoState (6, 6)).scene.map SceneItem.id = [0, 1] ∧
    (mouseMoveEvt c4DemoState (6, 6)).scene.map SceneItem.selectable
      = [false, false] ∧
    (mouseReleaseEvt c4DemoState (6, 6)).scene.map SceneItem.id = [0, 1] := by
  decide

/-- C4 (amended).  With the select tool active every pointer event passes
through to native handling and leaves the modelled view state — in
particular the scene — unchanged, so a preview shape that was live when the
tool was switched to select is still in the scene after the next pointer
event; it is removed only when a later non-select drag updates or finalizes
a preview. -/
theorem tool_switch_select_passthrough_c4 :
    ∀ (st : ViewState) (pos : Pt) (i : Nat),
      st.tool = Tool.select →
      mousePressEvt st pos = st ∧ mouseMoveEvt st pos = st ∧
      mouseReleaseEvt st pos = st ∧
      (st.currentItem = some i → (∃ it ∈ st.scene, it.id = i) →
        ∃ it ∈ (mouseMoveEvt st pos).scene, it.id = i) := by
  intro st pos i h
  have hp : mousePressEvt st pos = st := by simp [mousePressEvt, h]
  have hm : mouseMoveEvt st pos = st := by simp [mouseMoveEvt, h]
  have hr : mouseReleaseEvt st pos = st := by simp [mouseReleaseEvt, h]
  refine ⟨hp, hm, hr, fun _ hex => ?_⟩
  rw [hm]
  exact hex

/-- Witness for `tool_switch_select_passthrough_c4` at the concrete mid-drag
session. -/
theorem tool_switch_select_passthrough_c4_witness :
    mousePressEvt c4DemoState (6, 6) = c4DemoState ∧
    mouseMoveEvt c4DemoState (6, 6) = c4DemoState ∧
    mouseReleaseEvt c4DemoState (6, 6) = c4DemoState ∧
    (c4DemoState.currentItem = some 1 → (∃ it ∈ c4DemoState.scene, it.id = 1) →
      ∃ it ∈ (mouseMoveEvt c4DemoState (6, 6)).scene, it.id = 1) :=
  tool_switch_select_passthrough_c4 c4DemoState (6, 6) 1 (by decide)

/-- Unfolding of the substring scan on a cons cell. -/
theorem hasSub_cons (pat : Str) (c : Char) (t : Str) :
    hasSub pat (c :: t) = (pat.isPrefixOf (c :: t) || hasSub pat t) := rfl

/-- The empty pattern occurs in every string. -/
theorem hasSub_nil_pat (s : Str) : hasSub [] s = true := by
  cases s <;> rfl

/-- A string that literally contains the pattern passes the scan. -/
theorem hasSub_append_pat (pat a b : Str) : hasSub pat (a ++ pat ++ b) = true := by
  induction a with
  | nil =>
    cases pat with
    | nil => simpa using hasSub_nil_pat b
    | cons p pt =>
      show hasSub (p :: pt) (p :: (pt ++ b)) = true
      rw [hasSub_cons]
      have hpre : (p :: pt).isPrefixOf (p :: (pt ++ b)) = true :=
        List.isPrefixOf_iff_prefix.mpr (List.prefix_append _ _)
      rw [hpre]
      rfl
  | cons c a' ih =>
    show hasSub pat (c :: (a' ++ pat ++ b)) = true
    rw [hasSub_cons, ih]
    simp

/-- A pattern that prefixes some tail of the string occurs in it. -/
theorem hasSub_of_drop (pat s : Str) (n : Nat)
    (h : pat.isPrefixOf (s.drop n) = true) : hasSub pat s = true := by
  induction s generalizing n with
  | nil =>
    have hp : pat = [] := by simpa using h
    subst hp
    rfl
  | cons c t ih =>
    cases n with
    | zero =>
      simp only [List.drop_zero] at h
      rw [hasSub_cons, h]
      rfl
    | succ m =>
      have h2 := ih m (by simpa using h)
      rw [hasSub_cons, h2]
      simp

/-- A prefix of an append that fits inside the left part prefixes it. -/
theorem prefix_of_append_of_length_le (p x y : Str)
    (h : p.isPrefixOf (x ++ y) = true) (hl : p.length ≤ x.length) :
    p.isPrefixOf x = true := by
  rw [List.isPrefixOf_iff_prefix] at h ⊢
  have h1 := List.prefix_iff_eq_take.mp h
  have h2 : (x ++ y).take p.length = x.take p.length := by
    rw [List.take_append_eq_append_take]
    simp [Nat.sub_eq_zero_of_le hl]
  exact List.prefix_iff_eq_take.mpr (h1.trans h2)

/-- Any sufficient fuel computes the same replacement. -/
theorem replaceAllAux_congr (pat rep : Str) (f1 f2 : Nat) (s : Str)
    (h1 : s.length ≤ f1) (h2 : s.length ≤ f2) :
    replaceAllAux pat rep f1 s = replaceAllAux pat rep f2 s := by
  induction f1 generalizing f2 s with
  | zero =>
    cases s with
    | nil => cases f2 <;> rfl
    | cons c t => simp at h1
  | succ f1' ih =>
    cases s with
    | nil => cases f2 <;> rfl
    | cons c t =>
      cases f2 with
      | zero => simp at h2
      | succ f2' =>
        simp only [List.length_cons] at h1 h2
        by_cases hc : pat ≠ [] ∧ pat.isPrefixOf (c :: t) = true
        · have hp : 1 ≤ pat.length := by
            cases pat with
            | nil => exact absurd rfl hc.1
            | cons _ _ => simp
          simp only [replaceAllAux, if_pos hc]
          congr 1
          apply ih <;> (simp only [List.length_drop, List.length_cons]; omega)
        · simp only [replaceAllAux, if_neg hc]
          congr 1
          apply ih <;> omega

/-- Replacement is the identity when the pattern does not occur. -/
theorem replaceAllAux_no_occ (pat rep : Str) (f : Nat) (s : Str)
    (hf : s.length ≤ f) (h : hasSub pat s = false) :
    replaceAllAux pat rep f s = s := by
  induction f generalizing s with
  | zero =>
    cases s with
    | nil => rfl
    | cons c t => simp at hf
  | succ f' ih =>
    cases s with
    | nil => rfl
    | cons c t =>
      rw [hasSub_cons] at h
      have hsplit : pat.isPrefixOf (c :: t) = false ∧ hasSub pat t = false := by
        constructor <;> [exact (Bool.or_eq_false_iff.mp h).1;
          exact (Bool.or_eq_false_iff.mp h).2]
      have hcond : ¬(pat ≠ [] ∧ pat.isPrefixOf (c :: t) = true) := by
        intro hcon
        rw [hsplit.1] at hcon
        exact Bool.noConfusion hcon.2
      simp only [replaceAllAux, if_neg hcond]
      simp only [List.length_cons] at hf
      rw [ih t (by omega) hsplit.2]

/-- `str.replace` is the identity when the pattern does not occur. -/
theorem replaceAll_no_occ (pat rep s : Str) (h : hasSub pat s = false) :
    replaceAll pat rep s = s :=
  replaceAllAux_no_occ pat rep s.length s le_rfl h

/-- Replacement around a literal occurrence with no earlier occurrence:
the prefix is kept, the occurrence replaced, and scanning resumes after it. -/
theorem replaceAllAux_occ (pat rep : Str) (hp : pat ≠ []) :
    ∀ (a : Str) (b : Str) (f : Nat), (a ++ pat ++ b).length ≤ f →
      (∀ n, n < a.length → pat.isPrefixOf ((a ++ pat ++ b).drop n) = false) →
      replaceAllAux pat rep f (a ++ pat ++ b) = a ++ rep ++ replaceAll pat rep b := by
  intro a
  induction a with
  | nil =>
    intro b f hf _
    cases pat with
    | nil => exact absurd rfl hp
    | cons p pt =>
      cases f with
      | zero => simp at hf
      | succ f' =>
        show replaceAllAux (p :: pt) rep (f' + 1) (p :: (pt ++ b))
          = rep ++ replaceAll (p :: pt) rep b
        have hcond : (p :: pt) ≠ [] ∧ (p :: pt).isPrefixOf (p :: (pt ++ b)) = true := by
          refine ⟨by simp, ?_⟩
          exact List.isPrefixOf_iff_prefix.mpr (List.prefix_append (p :: pt) b)
        simp only [replaceAllAux, if_pos hcond]
        have hdrop : (p :: (pt ++ b)).drop (p :: pt).length = b :=
          List.drop_left (p :: pt) b
        rw [hdrop]
        have hlenb : b.length ≤ f' := by
          simp only [List.nil_append, List.length_append, List.length_cons] at hf
          omega
        rw [replaceAllAux_congr (p :: pt) rep f' b.length b hlenb le_rfl]
        rfl
  | cons c a' ih =>
    intro b f hf hno
    cases f with
    | zero =>
      simp only [List.cons_append, List.length_cons] at hf
      omega
    | succ f' =>
      have h0 : pat.isPrefixOf (c :: (a' ++ pat ++ b)) = false := by
        have h1 := hno 0 (by simp)
        simpa using h1
      have hcond : ¬(pat ≠ [] ∧ pat.isPrefixOf (c :: (a' ++ pat ++ b)) = true) := by
        intro hcon
        rw [h0] at hcon
        exact Bool.noConfusion hcon.2
      show replaceAllAux pat rep (f' + 1) (c :: (a' ++ pat ++ b))
        = c :: (a' ++ rep ++ replaceAll pat rep b)
      simp only [replaceAllAux, if_neg hcond]
      have hf' : (a' ++ pat ++ b).length ≤ f' := by
        simp only [List.cons_append, List.length_cons] at hf
        omega
      rw [ih b f' hf' ?_]
      intro n hn
      have h2 := hno (n + 1) (by simp only [List.length_cons]; omega)
      simpa using h2

/-- A slash-free string is a single path segment. -/
theorem splitPath_noSlash (s : Str) (h : ('/' : Char) ∉ s) : splitPath s = [s] := by
  induction s with
  | nil => rfl
  | cons c t ih =>
    have hc : c ≠ '/' := fun e => h (by simp [e])
    have ht : ('/' : Char) ∉ t := fun m => h (by simp [m])
    simp [splitPath, hc, ih ht]

/-- Splitting a path whose first segment is slash-free. -/
theorem splitPath_cons_slash (s t : Str) (h : ('/' : Char) ∉ s) :
    splitPath (s ++ '/' :: t) = s :: splitPath t := by
  induction s with
  | nil => simp [splitPath]
  | cons c s' ih =>
    have hc : c ≠ '/' := fun e => h (by simp [e])
    have hs : ('/' : Char) ∉ s' := fun m => h (by simp [m])
    simp [splitPath, hc, ih hs]

/-- Splitting is a left inverse of joining slash-free segments. -/
theorem splitPath_joinPath (segs : List Str) (hne : segs ≠ [])
    (h : ∀ s ∈ segs, ('/' : Char) ∉ s) :
    splitPath (joinPath segs) = segs := by
  induction segs with
  | nil => exact absurd rfl hne
  | cons s rest ih =>
    cases rest with
    | nil => exact splitPath_noSlash s (h s (by simp))
    | cons s2 r2 =>
      have hj : joinPath (s :: s2 :: r2) = s ++ '/' :: joinPath (s2 :: r2) := rfl
      rw [hj, splitPath_cons_slash _ _ (h s (by simp)),
        ih (by simp) (fun x hx => h x (by simp [hx]))]

/-- C2 (counterexample).  The relative source path `original/sub/img.jpg`
contains a path segment literally named `original`, so the claim maps it to
`edited/sub/img.jpg`; the code's substring test `'/original/' in path` fails
on it (no slash before the first segment), so the sibling-`edited` fallback
produces `original/edited/img.jpg` instead. -/
theorem dest_path_claim_counterexample_c2 :
    origSeg ∈ splitPath "original/sub/img.jpg".toList ∧
    savePathFor "original/sub/img.jpg".toList = "original/edited/img.jpg".toList ∧
    claimDest "original/sub/img.jpg".toList = "edited/sub/img.jpg".toList ∧
    savePathFor "original/sub/img.jpg".toList
      ≠ claimDest "original/sub/img.jpg".toList := by
  decide

/-- C2 (amended).  Destination-path remapping as the code computes it:
(1) when the source path contains the substring `/original/` — written here
as `a ++ "/original/" ++ b` with no occurrence of `/original/` inside
`a ++ "/original"` nor inside `b`, i.e. a unique occurrence — the
destination replaces it with `/edited/` (Python `str.replace` replaces every
non-overlapping occurrence left to right);
(2) when the path (written as slash-free segments) does not contain the
substring `/original/`, the destination is the sibling `edited` directory of
the source's parent directory joined with the source's filename. -/
theorem dest_path_remap_amended_c2 :
    (∀ a b : Str,
        hasSub sOrig (a ++ "/original".toList) = false →
        hasSub sOrig b = false →
        savePathFor (a ++ sOrig ++ b) = a ++ sEdit ++ b) ∧
    (∀ segs : List Str, segs ≠ [] → (∀ s ∈ segs, ('/' : Char) ∉ s) →
        hasSub sOrig (joinPath segs) = false →
        savePathFor (joinPath segs) =
          joinPath (segs.dropLast.dropLast ++ [editSeg, lastName segs])) := by
  constructor
  · intro a b ha hb
    have hp : sOrig ≠ [] := by decide
    have hTrue : hasSub sOrig (a ++ sOrig ++ b) = true := hasSub_append_pat sOrig a b
    have hno : ∀ n, n < a.length →
        sOrig.isPrefixOf ((a ++ sOrig ++ b).drop n) = false := by
      intro n hn
      cases hx : sOrig.isPrefixOf ((a ++ sOrig ++ b).drop n) with
      | false => rfl
      | true =>
        exfalso
        have hsplitStr : a ++ sOrig ++ b = (a ++ "/original".toList) ++ '/' :: b := by
          have hso : sOrig = "/original".toList ++ ['/'] := by decide
          rw [hso]
          simp
        rw [hsplitStr] at hx
        have hdrop : ((a ++ "/original".toList) ++ '/' :: b).drop n
            = (a ++ "/original".toList).drop n ++ '/' :: b := by
          rw [List.drop_append_eq_append_drop]
          have hn2 : n - (a ++ "/original".toList).length = 0 := by
            simp only [List.length_append]
            omega
          rw [hn2]
          simp
        rw [hdrop] at hx
        have hplen : sOrig.length ≤ ((a ++ "/original".toList).drop n).length := by
          have h10 : sOrig.length = 10 := by decide
          have h9 : ("/original".toList : Str).length = 9 := by decide
          simp only [List.length_drop, List.length_append, h10, h9]
          omega
        have hpref := prefix_of_append_of_length_le _ _ _ hx hplen
        have hcontra := hasSub_of_drop sOrig (a ++ "/original".toList) n hpref
        rw [ha] at hcontra
        exact Bool.noConfusion hcontra
    unfold savePathFor
    rw [if_pos hTrue]
    show replaceAllAux sOrig sEdit (a ++ sOrig ++ b).length (a ++ sOrig ++ b)
      = a ++ sEdit ++ b
    rw [replaceAllAux_occ sOrig sEdit hp a b _ le_rfl hno,
      replaceAll_no_occ sOrig sEdit b hb]
  · intro segs hne hs hno
    unfold savePathFor
    rw [if_neg (by rw [hno]; exact Bool.noConfusion)]
    rw [splitPath_joinPath segs hne hs]

/-- Witness for `dest_path_remap_amended_c2` on `/data/original/img.jpg`. -/
theorem dest_path_remap_amended_c2_witness :
    (hasSub sOrig ("/data".toList ++ "/original".toList) = false ∧
      hasSub sOrig "img.jpg".toList = false ∧
      savePathFor ("/data".toList ++ sOrig ++ "img.jpg".toList)
        = "/data".toList ++ sEdit ++ "img.jpg".toList) ∧
    savePathFor "/data/original/img.jpg".toList = "/data/edited/img.jpg".toList :=
  ⟨⟨by decide, by decide,
      dest_path_remap_amended_c2.1 "/data".toList "img.jpg".toList
        (by decide) (by decide)⟩,
    by decide⟩
